import Mathlib

/-!
Shallow embedding of the core of the `python-raytracer` repository
(`vec3.py`, `ray.py`, `interval.py`, `core.py`, `hittable.py`,
`material.py`, `color.py`, `camera.py`) together with theorems settling
the frozen claims about it.

Modelling conventions:
* Python floats are modelled by real numbers `ℝ`; `float("inf")`
  (`utils.infinity`) forces the `Interval` bounds to live in `EReal`.
* Python division `x / y` raises `ZeroDivisionError` when `y == 0`; in
  the total embedding we use Lean's convention `x / 0 = 0`, except in
  `Camera.init` (claim about configuration errors) where the exception
  is modelled explicitly with `Except`.
* Every call to the process-global random generator is replaced by an
  explicitly passed sample (a value or a stream), the "determinism
  injected into the random source" of the spec.
-/

namespace Raytracer

/-! ## vec3.py -/

/-- `Vec3` from `vec3.py`: three float coordinates. -/
structure Vec3 where
  x : ℝ
  y : ℝ
  z : ℝ

instance : Add Vec3 := ⟨fun a b => ⟨a.x + b.x, a.y + b.y, a.z + b.z⟩⟩

instance : Sub Vec3 := ⟨fun a b => ⟨a.x - b.x, a.y - b.y, a.z - b.z⟩⟩

/-- `Vec3.__mul__` with a `Vec3` argument: componentwise (Hadamard) product. -/
instance : Mul Vec3 := ⟨fun a b => ⟨a.x * b.x, a.y * b.y, a.z * b.z⟩⟩

/-- `Vec3.__mul__` with a scalar argument. -/
instance : HMul Vec3 ℝ Vec3 := ⟨fun a t => ⟨a.x * t, a.y * t, a.z * t⟩⟩

/-- `Vec3.__neg__` / `inverse`. -/
instance : Neg Vec3 := ⟨fun a => ⟨-a.x, -a.y, -a.z⟩⟩

/-- `Vec3.__truediv__`: `self * (1 / other)`.  (In Python `1 / 0.0` raises
`ZeroDivisionError`; the total model returns the zero vector there.) -/
noncomputable instance : HDiv Vec3 ℝ Vec3 := ⟨fun a t => a * (1 / t)⟩

/-- `vec3.dot`. -/
def dot (u v : Vec3) : ℝ := u.x * v.x + u.y * v.y + u.z * v.z

/-- `vec3.cross`. -/
def cross (u v : Vec3) : Vec3 :=
  ⟨u.y * v.z - u.z * v.y, u.z * v.x - u.x * v.z, u.x * v.y - u.y * v.x⟩

/-- `Vec3.length_squared`. -/
def Vec3.length_squared (v : Vec3) : ℝ := v.x * v.x + v.y * v.y + v.z * v.z

/-- `Vec3.length`. -/
noncomputable def Vec3.length (v : Vec3) : ℝ := Real.sqrt v.length_squared

/-- `vec3.unit_vector`. -/
noncomputable def unit_vector (v : Vec3) : Vec3 := v / v.length

/-- `Vec3.near_zero`: every component below `1e-8` in magnitude. -/
def Vec3.near_zero (v : Vec3) : Prop :=
  |v.x| < 1e-8 ∧ |v.y| < 1e-8 ∧ |v.z| < 1e-8

noncomputable instance (v : Vec3) : Decidable v.near_zero := by
  unfold Vec3.near_zero; infer_instance

/-- `vec3.reflect`: `v - (normal * dot(v, normal) * 2)`. -/
def reflect (v normal : Vec3) : Vec3 := v - (normal * dot v normal * (2 : ℝ))

/-- `vec3.refract`. -/
noncomputable def refract (uv n : Vec3) (relative_refractive_index : ℝ) : Vec3 :=
  let cos_theta := min (dot (-uv) n) 1
  let r_out_perp := (uv + (n * cos_theta)) * relative_refractive_index
  let r_out_parallel := n * (-Real.sqrt |1.0 - r_out_perp.length_squared|)
  r_out_perp + r_out_parallel

/-- `color.Color` is a `Vec3` subclass adding only accessors. -/
abbrev Color := Vec3

/-! ## ray.py -/

/-- `ray.Ray`: frozen dataclass of origin and direction. -/
structure Ray where
  origin : Vec3
  direction : Vec3

/-- `Ray.at`. -/
def Ray.at (r : Ray) (t : ℝ) : Vec3 := r.origin + (r.direction * t)

/-! ## interval.py and utils.py -/

/-- `utils.infinity = float("inf")`: bounds of an `Interval` live in `EReal`. -/
def infinity : EReal := ⊤

/-- `interval.Interval`. -/
structure Interval where
  min : EReal
  max : EReal

/-- `Interval.contains`: closed membership. -/
def Interval.contains (i : Interval) (x : ℝ) : Prop :=
  i.min ≤ (x : EReal) ∧ (x : EReal) ≤ i.max

/-- `Interval.surrounds`: strict-open membership. -/
def Interval.surrounds (i : Interval) (x : ℝ) : Prop :=
  i.min < (x : EReal) ∧ (x : EReal) < i.max

noncomputable instance (i : Interval) (x : ℝ) : Decidable (i.surrounds x) := by
  unfold Interval.surrounds; infer_instance

/-- `Interval.clamp`.  (The repository only clamps against finite bounds;
`toReal` realises the bound as the returned float.) -/
noncomputable def Interval.clamp (i : Interval) (x : ℝ) : ℝ :=
  if (x : EReal) < i.min then i.min.toReal
  else if i.max < (x : EReal) then i.max.toReal
  else x

/-! ## core.py and material.py data model

The source dispatches `scatter` through an abstract `Material` base
class whose only implementations are `Lambertian`, `Metal` and
`Dielectric`; the closed set is represented as an inductive. -/

/-- The closed set of materials of `material.py`. -/
inductive Material where
  | lambertian (albedo : Color)
  | metal (albedo : Color) (fuzz : ℝ)
  | dielectric (refraction_index : ℝ)

/-- `core.HitRecord`. -/
structure HitRecord where
  p : Vec3
  normal : Vec3
  t : ℝ
  material : Material
  front_face : Bool

/-- `core.ScatterRecord`. -/
structure ScatterRecord where
  attenuation : Color
  scattered : Ray

/-! ## hittable.py -/

/-- `hittable.Sphere` (the `__post_init__` positivity check on the radius
is a construction-time guard, not part of the hit test). -/
structure Sphere where
  center : Vec3
  radius : ℝ
  material : Material

/-- The hit record `Sphere.hit` builds from an accepted root. -/
noncomputable def Sphere.record (s : Sphere) (r : Ray) (root : ℝ) : HitRecord :=
  let point := r.at root
  let outward_normal := (point - s.center) / s.radius
  let front_face := dot r.direction outward_normal < 0
  { p := point
    normal := if front_face then outward_normal else -outward_normal
    t := root
    material := s.material
    front_face := decide front_face }

/-- `Sphere.hit`: quadratic intersection test; the smaller root is tried
first, the larger one only if the smaller is not strictly inside the
range. -/
noncomputable def Sphere.hit (s : Sphere) (r : Ray) (t_range : Interval) :
    Option HitRecord :=
  let oc := s.center - r.origin
  let a := r.direction.length_squared
  let h := dot r.direction oc
  let c := oc.length_squared - s.radius * s.radius
  let discriminant := h * h - a * c
  if discriminant < 0 then none
  else
    let sqrtd := Real.sqrt discriminant
    let root₁ := (h - sqrtd) / a
    let root₂ := (h + sqrtd) / a
    if t_range.surrounds root₁ then some (s.record r root₁)
    else if t_range.surrounds root₂ then some (s.record r root₂)
    else none

/-- The discriminant of the intersection quadratic of `Sphere.hit`
(independent of the interval). -/
noncomputable def Sphere.disc (s : Sphere) (r : Ray) : ℝ :=
  let oc := s.center - r.origin
  let a := r.direction.length_squared
  let h := dot r.direction oc
  let c := oc.length_squared - s.radius * s.radius
  h * h - a * c

/-- The smaller quadratic root tried first by `Sphere.hit`. -/
noncomputable def Sphere.root1 (s : Sphere) (r : Ray) : ℝ :=
  (dot r.direction (s.center - r.origin) - Real.sqrt (s.disc r)) /
    r.direction.length_squared

/-- The larger quadratic root tried second by `Sphere.hit`. -/
noncomputable def Sphere.root2 (s : Sphere) (r : Ray) : ℝ :=
  (dot r.direction (s.center - r.origin) + Real.sqrt (s.disc r)) /
    r.direction.length_squared

/-- `hittable.World`: a list of primitives (the repository's only
primitive is `Sphere`). -/
structure World where
  objects : List Sphere

/-- The loop body of `World.hit`: iterate the objects, keeping the
closest record found so far and narrowing the scoped interval's upper
bound to its `t`. -/
noncomputable def World.hitLoop (r : Ray) :
    List Sphere → Option HitRecord → Interval → Option HitRecord
  | [], closest, _ => closest
  | o :: rest, closest, curr =>
    match o.hit r curr with
    | none => World.hitLoop r rest closest curr
    | some rec => World.hitLoop r rest (some rec) ⟨curr.min, (rec.t : EReal)⟩

/-- `World.hit`: `curr_range` starts as a `copy.copy` of the caller's
`t_range`, so the loop narrows only the query-scoped copy. -/
noncomputable def World.hit (w : World) (r : Ray) (t_range : Interval) :
    Option HitRecord :=
  World.hitLoop r w.objects none t_range

/-- The caller's interval object after a `World.hit` query.  Because the
source copies `t_range` into `curr_range` (`copy.copy`) and mutates only
the copy, the caller's interval is whatever it was before the call. -/
def World.hitCallerInterval (_w : World) (_r : Ray) (t_range : Interval) :
    Interval :=
  t_range

/-! ## material.py scatter operations

Each call to the global random generator is replaced by an explicit
argument: `ruv` stands for the value returned by
`vec3.random_unit_vector()`, `rand` for `random.random()`. -/

/-- `Lambertian.scatter`. -/
noncomputable def Lambertian.scatter (albedo : Color) (_r : Ray)
    (hit_record : HitRecord) (ruv : Vec3) : Option ScatterRecord :=
  let scatter_direction := hit_record.normal + ruv
  let scatter_direction :=
    if scatter_direction.near_zero then hit_record.normal else scatter_direction
  let scattered := Ray.mk hit_record.p scatter_direction
  some { attenuation := albedo, scattered := scattered }

/-- `Metal.scatter` (the `__post_init__` range check on `fuzz` is a
construction-time guard, not part of scattering). -/
noncomputable def Metal.scatter (albedo : Color) (fuzz : ℝ) (r : Ray)
    (hit_record : HitRecord) (ruv : Vec3) : Option ScatterRecord :=
  let reflected := reflect r.direction hit_record.normal
  let reflected := unit_vector reflected + (ruv * fuzz)
  let scattered := Ray.mk hit_record.p reflected
  some { attenuation := albedo, scattered := scattered }

/-- `Dielectric.reflectance`: Schlick's approximation. -/
noncomputable def Dielectric.reflectance (cosine refraction_index : ℝ) : ℝ :=
  let r0 := (1 - refraction_index) / (1 + refraction_index)
  let r0 := r0 * r0
  r0 + (1 - r0) * (1 - cosine) ^ 5

/-- `Dielectric.scatter` (returns a record unconditionally, matching the
source's non-`Optional` return). -/
noncomputable def Dielectric.scatter (refraction_index : ℝ) (r_in : Ray)
    (hit_record : HitRecord) (rand : ℝ) : ScatterRecord :=
  let attenuation : Color := ⟨1.0, 1.0, 1.0⟩
  let ri := if hit_record.front_face then 1.0 / refraction_index
            else refraction_index
  let u := unit_vector r_in.direction
  let cos_theta := min (dot (-u) hit_record.normal) 1.0
  let sin_theta := Real.sqrt (1.0 - cos_theta * cos_theta)
  let cannot_refract := ri * sin_theta > 1.0
  let direction :=
    if cannot_refract ∨ Dielectric.reflectance cos_theta ri > rand then
      reflect u hit_record.normal
    else
      refract u hit_record.normal ri
  { attenuation := attenuation, scattered := Ray.mk hit_record.p direction }

/-- One bounce's worth of injected randomness: the unit vector drawn by
`random_unit_vector()` and the uniform sample drawn by `random.random()`. -/
structure BounceRand where
  ruv : Vec3
  u : ℝ

/-- Polymorphic dispatch of `Material.scatter` over the closed set. -/
noncomputable def Material.scatter :
    Material → Ray → HitRecord → BounceRand → Option ScatterRecord
  | .lambertian albedo, r, hit_record, rd =>
    Lambertian.scatter albedo r hit_record rd.ruv
  | .metal albedo fuzz, r, hit_record, rd =>
    Metal.scatter albedo fuzz r hit_record rd.ruv
  | .dielectric ix, r, hit_record, rd =>
    some (Dielectric.scatter ix r hit_record rd.u)

/-! ## color.py -/

/-- `color.linear_to_gamma`. -/
noncomputable def linear_to_gamma (linear_component : ℝ) : ℝ :=
  if linear_component > 0 then Real.sqrt linear_component else 0

/-- Python `int(...)` on a float: truncation toward zero. -/
noncomputable def pyInt (x : ℝ) : ℤ := if 0 ≤ x then ⌊x⌋ else ⌈x⌉

/-- One channel of `color.make_color_array`: gamma correction, clamp to
`Interval(0.00, 0.999)`, scale by 256 and truncate to an integer. -/
noncomputable def gammaChannel (c : ℝ) : ℤ :=
  let g := linear_to_gamma c
  let intensity : Interval := ⟨((0 : ℝ) : EReal), ((0.999 : ℝ) : EReal)⟩
  pyInt (256 * intensity.clamp g)

/-- An 8-bit RGB triple (the `[ir, ig, ib]` list of `make_color_array`). -/
abbrev RGB := ℤ × ℤ × ℤ

/-- `color.make_color_array`. -/
noncomputable def make_color_array (color : Color) : RGB :=
  (gammaChannel color.x, gammaChannel color.y, gammaChannel color.z)

/-- `np.clip(rgb, 0, 255)` applied componentwise in `camera.py`. -/
def clip255 (v : RGB) : RGB :=
  (max 0 (min 255 v.1), max 0 (min 255 v.2.1), max 0 (min 255 v.2.2))

/-! ## camera.py

The derived, immutable-after-construction camera state.  `Camera.init`
below models `Camera.__init__` (with Python's `ZeroDivisionError`
surfaced through `Except`); rendering code only reads these fields. -/

/-- The camera fields derived by `Camera.__init__` and read while
rendering. -/
structure Camera where
  image_width : ℕ
  image_height : ℕ
  samples_per_pixel : ℕ
  max_depth : ℕ
  defocus_angle : ℝ
  camera_center : Vec3
  pixel_delta_u : Vec3
  pixel_delta_v : Vec3
  pixel00_loc : Vec3
  defocus_disk_u : Vec3
  defocus_disk_v : Vec3

/-- The injected randomness of one pixel sample: the two `random()`
draws of `sample_square`, the unit-disk point of
`defocus_disk_sample`, and one `BounceRand` per recursion level of
`ray_color`. -/
structure SampleRand where
  ox : ℝ
  oy : ℝ
  dx : ℝ
  dy : ℝ
  bounce : ℕ → BounceRand

/-- `Camera.get_ray`. -/
noncomputable def Camera.get_ray (cam : Camera) (i j : ℕ) (sr : SampleRand) :
    Ray :=
  let offset : Vec3 := ⟨sr.ox - 0.5, sr.oy - 0.5, 0⟩
  let pixel_sample :=
    cam.pixel00_loc + (cam.pixel_delta_u * ((i : ℝ) + offset.x))
      + (cam.pixel_delta_v * ((j : ℝ) + offset.y))
  let ray_origin :=
    if cam.defocus_angle ≤ 0 then cam.camera_center
    else cam.camera_center + (cam.defocus_disk_u * sr.dx)
      + (cam.defocus_disk_v * sr.dy)
  Ray.mk ray_origin (pixel_sample - ray_origin)

/-- `Camera.ray_color` (recursion on the depth counter; the stream `rng`
supplies the randomness each scatter consumes). -/
noncomputable def Camera.ray_color (world : World) (rng : ℕ → BounceRand)
    (ray : Ray) : ℕ → Color
  | 0 => ⟨0, 0, 0⟩
  | depth + 1 =>
    match world.hit ray ⟨((0.001 : ℝ) : EReal), infinity⟩ with
    | some record =>
      match record.material.scatter ray record (rng (depth + 1)) with
      | some scatter_record =>
        scatter_record.attenuation *
          Camera.ray_color world rng scatter_record.scattered depth
      | none => ⟨0, 0, 0⟩
    | none =>
      let unit_direction := unit_vector ray.direction
      let a := (unit_direction.y + 1.0) * 0.5
      (⟨1.0, 1.0, 1.0⟩ : Color) * (1.0 - a) + (⟨0.5, 0.7, 1.0⟩ : Color) * a

/-- Instrumentation of `Camera.ray_color`: how many times the evaluation
queries the scene (`world.hit` calls, including recursive ones). -/
noncomputable def Camera.ray_color_scene_queries (world : World)
    (rng : ℕ → BounceRand) (ray : Ray) : ℕ → ℕ
  | 0 => 0
  | depth + 1 =>
    match world.hit ray ⟨((0.001 : ℝ) : EReal), infinity⟩ with
    | some record =>
      match record.material.scatter ray record (rng (depth + 1)) with
      | some scatter_record =>
        1 + Camera.ray_color_scene_queries world rng scatter_record.scattered
          depth
      | none => 1
    | none => 1

/-- Per-pixel, per-sample injected randomness for a whole render (the
deterministic substitute for the process-global generator that the spec
requires for the parallel/serial comparison). -/
abbrev PixelRng := ℕ × ℕ → ℕ → SampleRand

/-- The per-pixel body shared verbatim by `Camera.process_chunk` and the
serial loop of `Camera._save_image_to_png`: average
`samples_per_pixel` ray-color evaluations, gamma-map to 8-bit and clip. -/
noncomputable def Camera.renderPixel (cam : Camera) (world : World)
    (rng : PixelRng) (ji : ℕ × ℕ) : RGB :=
  let pixel := (List.range cam.samples_per_pixel).foldl
    (fun pixel s =>
      let sr := rng ji s
      let r := cam.get_ray ji.2 ji.1 sr
      pixel + Camera.ray_color world sr.bounce r cam.max_depth)
    (⟨0, 0, 0⟩ : Color)
  clip255 (make_color_array (pixel / (cam.samples_per_pixel : ℝ)))

/-- `Camera.process_chunk`: one worker's result, a list of
(coordinate, color) pairs for its chunk. -/
noncomputable def Camera.process_chunk (cam : Camera) (world : World)
    (rng : PixelRng) (chunk : List (ℕ × ℕ)) : List ((ℕ × ℕ) × RGB) :=
  chunk.map (fun ji => (ji, cam.renderPixel world rng ji))

/-- The framebuffer (`np.zeros((h, w, 3))` plus indexed writes),
modelled as a total map from coordinates. -/
abbrev Framebuffer := ℕ × ℕ → RGB

/-- The all-zero initial framebuffer. -/
def fbZero : Framebuffer := fun _ => (0, 0, 0)

/-- `color_array[j, i] = color`. -/
def fbWrite (fb : Framebuffer) (ji : ℕ × ℕ) (c : RGB) : Framebuffer :=
  Function.update fb ji c

/-- The serial per-pixel loop of `Camera._save_image_to_png` (its body
is the same per-pixel computation, written out inline as in the
source). -/
noncomputable def Camera.serialFramebuffer (cam : Camera) (world : World)
    (rng : PixelRng) : Framebuffer :=
  (List.range cam.image_height).foldl
    (fun fb j =>
      (List.range cam.image_width).foldl
        (fun fb i =>
          let pixel := (List.range cam.samples_per_pixel).foldl
            (fun pixel s =>
              let sr := rng (j, i) s
              let r := cam.get_ray i j sr
              pixel + Camera.ray_color world sr.bounce r cam.max_depth)
            (⟨0, 0, 0⟩ : Color)
          fbWrite fb (j, i)
            (clip255 (make_color_array (pixel / (cam.samples_per_pixel : ℝ)))))
        fb)
    fbZero

/-- The pixel list of `Camera.save_image_to_png`:
`[(j, i) for j in range(h) for i in range(w)]`. -/
def pixelList (height width : ℕ) : List (ℕ × ℕ) :=
  (List.range height).flatMap (fun j => (List.range width).map (fun i => (j, i)))

/-- The chunking of `Camera.save_image_to_png`:
`[pixels[i : i + chunk_size] for i in range(0, len(pixels), chunk_size)]`
for a positive `chunk_size`.  (For `chunk_size = 0` Python's `range`
raises `ValueError`; the model returns no chunks there.) -/
def chunksOf {α : Type} : ℕ → List α → List (List α)
  | _, [] => []
  | 0, _ :: _ => []
  | chunk_size + 1, a :: rest =>
    (a :: rest).take (chunk_size + 1)
      :: chunksOf (chunk_size + 1) ((a :: rest).drop (chunk_size + 1))
termination_by _ l => l.length
decreasing_by
  simp [List.length_drop]
  omega

/-- The chunk list built by `Camera.save_image_to_png` for a given
`num_chunks` (`chunk_size = len(pixels) // num_chunks`). -/
def Camera.chunks (cam : Camera) (num_chunks : ℕ) : List (List (ℕ × ℕ)) :=
  let pixels := pixelList cam.image_height cam.image_width
  let chunk_size := pixels.length / num_chunks
  chunksOf chunk_size pixels

/-- The merge loop of `Camera.save_image_to_png`: write every
(coordinate, color) pair of every collected chunk result into the
framebuffer, in the order the results were collected. -/
def mergeResults (results : List (List ((ℕ × ℕ) × RGB))) : Framebuffer :=
  results.foldl
    (fun fb chunk => chunk.foldl (fun fb p => fbWrite fb p.1 p.2) fb) fbZero

/-- The chunked-parallel path of `Camera.save_image_to_png`:
`completed` is the chunk list in the (arbitrary) order
`pool.imap_unordered` completed them. -/
noncomputable def Camera.parallelFramebuffer (cam : Camera) (world : World)
    (rng : PixelRng) (completed : List (List (ℕ × ℕ))) : Framebuffer :=
  mergeResults (completed.map (cam.process_chunk world rng))

/-! ## Camera.__init__ with Python error semantics

`utils.degrees_to_radians` and the construction-time computations of
`Camera.__init__`, with the exceptions Python would raise surfaced in
`Except`.  The repository's construction-time checks (`Sphere` radius,
`Metal` fuzz) raise `ValueError` with a message; a bare float division
by zero raises `ZeroDivisionError`. -/

/-- The exceptions construction code in this repository can raise. -/
inductive PyErr where
  | zeroDivisionError
  | valueError (msg : String)
deriving DecidableEq

/-- `utils.degrees_to_radians`. -/
noncomputable def degrees_to_radians (degrees : ℝ) : ℝ :=
  degrees * Real.pi / 180.0

/-- Python float division, which raises `ZeroDivisionError` on a zero
divisor. -/
noncomputable def pyDiv (a b : ℝ) : Except PyErr ℝ :=
  if b = 0 then .error .zeroDivisionError else .ok (a / b)

/-- Python `Vec3.__truediv__` (`self * (1 / other)`): the `1 / other`
raises `ZeroDivisionError` when `other == 0`. -/
noncomputable def pyVecDiv (v : Vec3) (t : ℝ) : Except PyErr Vec3 :=
  if t = 0 then .error .zeroDivisionError else .ok (v * (1 / t))

/-- `vec3.unit_vector` under Python semantics: dividing by a zero length
raises `ZeroDivisionError`. -/
noncomputable def pyUnitVector (v : Vec3) : Except PyErr Vec3 :=
  pyVecDiv v v.length

/-- `Camera.__init__`: every statement of the source in order, with the
optional parameters defaulted as in the source (`lookfrom or
Point3(0,0,0)` etc.) and Python's division exceptions made explicit. -/
noncomputable def Camera.init (aspect_ratio : ℝ := 16.0 / 9.0)
    (image_width : ℕ := 400) (samples_per_pixel : ℕ := 10)
    (max_depth : ℕ := 10) (vfov : ℝ := 90)
    (lookfrom : Option Vec3 := none) (lookat : Option Vec3 := none)
    (vup : Option Vec3 := none) (defocus_angle : ℝ := 0)
    (focus_dist : ℝ := 10) : Except PyErr Camera := do
  let heightRatio ← pyDiv (image_width : ℝ) aspect_ratio
  let image_height : ℕ := (max 1 (pyInt heightRatio)).toNat
  let lookfrom := lookfrom.getD ⟨0, 0, 0⟩
  let lookat := lookat.getD ⟨0, 0, -1⟩
  let vup := vup.getD ⟨0, 1, 0⟩
  let theta := degrees_to_radians vfov
  let h := Real.tan (theta / 2)
  let viewport_height := 2 * h * focus_dist
  let viewport_width :=
    viewport_height * ((image_width : ℝ) / (image_height : ℝ))
  let camera_center := lookfrom
  let w ← pyUnitVector (lookfrom - lookat)
  let u ← pyUnitVector (cross vup w)
  let v := cross w u
  let viewport_u := u * viewport_width
  let viewport_v := (-v) * viewport_height
  let pixel_delta_u ← pyVecDiv viewport_u (image_width : ℝ)
  let pixel_delta_v ← pyVecDiv viewport_v (image_height : ℝ)
  let viewport_upper_left :=
    camera_center - (w * focus_dist) - viewport_u / (2 : ℝ)
      - viewport_v / (2 : ℝ)
  let pixel00_loc :=
    viewport_upper_left + ((pixel_delta_u + pixel_delta_v) * (0.5 : ℝ))
  let defocus_radius :=
    Real.tan (degrees_to_radians (defocus_angle / 2)) * focus_dist
  return { image_width := image_width
           image_height := image_height
           samples_per_pixel := samples_per_pixel
           max_depth := max_depth
           defocus_angle := defocus_angle
           camera_center := camera_center
           pixel_delta_u := pixel_delta_u
           pixel_delta_v := pixel_delta_v
           pixel00_loc := pixel00_loc
           defocus_disk_u := u * defocus_radius
           defocus_disk_v := v * defocus_radius }

/-! ## Theorems -/

/-! Componentwise unfolding lemmas for the `Vec3` operations. -/

@[simp] theorem Vec3.add_def (a b : Vec3) :
    a + b = ⟨a.x + b.x, a.y + b.y, a.z + b.z⟩ := rfl

@[simp] theorem Vec3.sub_def (a b : Vec3) :
    a - b = ⟨a.x - b.x, a.y - b.y, a.z - b.z⟩ := rfl

@[simp] theorem Vec3.hadamard_def (a b : Vec3) :
    a * b = ⟨a.x * b.x, a.y * b.y, a.z * b.z⟩ := rfl

@[simp] theorem Vec3.smul_def (a : Vec3) (t : ℝ) :
    a * t = ⟨a.x * t, a.y * t, a.z * t⟩ := rfl

@[simp] theorem Vec3.neg_def (a : Vec3) : -a = ⟨-a.x, -a.y, -a.z⟩ := rfl

@[simp] theorem Vec3.div_def (a : Vec3) (t : ℝ) :
    a / t = ⟨a.x * (1 / t), a.y * (1 / t), a.z * (1 / t)⟩ := rfl

@[simp] theorem Vec3.mk_x (a b c : ℝ) : (Vec3.mk a b c).x = a := rfl

@[simp] theorem Vec3.mk_y (a b c : ℝ) : (Vec3.mk a b c).y = b := rfl

@[simp] theorem Vec3.mk_z (a b c : ℝ) : (Vec3.mk a b c).z = c := rfl

/-- C5: for every scene, random stream and ray, `ray_color` at depth 0
returns pure black, and performs zero scene queries. -/
theorem ray_color_depth_zero_black :
    ∀ (world : World) (rng : ℕ → BounceRand) (ray : Ray),
      Camera.ray_color world rng ray 0 = (⟨0, 0, 0⟩ : Color) ∧
      Camera.ray_color_scene_queries world rng ray 0 = 0 :=
  fun _ _ _ => ⟨rfl, rfl⟩

/-- C10: for every incoming ray, hit record and injected randomness, the
scattered ray produced by each of the three materials has its origin at
the hit record's intersection point `p`. -/
theorem scatter_origin_eq_hit_point :
    ∀ (albedo : Color) (fuzz ix : ℝ) (r : Ray) (hit_record : HitRecord)
      (ruv : Vec3) (rand : ℝ),
      (Lambertian.scatter albedo r hit_record ruv).map
          (fun sc => sc.scattered.origin) = some hit_record.p ∧
      (Metal.scatter albedo fuzz r hit_record ruv).map
          (fun sc => sc.scattered.origin) = some hit_record.p ∧
      (Dielectric.scatter ix r hit_record rand).scattered.origin =
        hit_record.p :=
  fun _ _ _ _ _ _ _ => ⟨rfl, rfl, rfl⟩

/-- C7: `Metal.scatter` always returns a scatter record and its
attenuation is the metal's albedo; in particular this also happens when
the fuzz-perturbed reflected direction points back into the surface
(negative dot product with the normal), as the explicit instance in the
second conjunct shows — that case is not filtered out. -/
theorem metal_scatter_total :
    (∀ (albedo : Color) (fuzz : ℝ) (r : Ray) (hit_record : HitRecord)
      (ruv : Vec3),
      (Metal.scatter albedo fuzz r hit_record ruv).isSome = true ∧
      (Metal.scatter albedo fuzz r hit_record ruv).map
        (fun sc => sc.attenuation) = some albedo) ∧
    ∃ (albedo : Color) (fuzz : ℝ) (r : Ray) (hit_record : HitRecord)
      (ruv : Vec3) (sc : ScatterRecord),
      Metal.scatter albedo fuzz r hit_record ruv = some sc ∧
      dot sc.scattered.direction hit_record.normal < 0 := by
  constructor
  · exact fun _ _ _ _ _ => ⟨rfl, rfl⟩
  · refine ⟨⟨0, 0, 0⟩, 1, ⟨⟨0, 0, 0⟩, ⟨1, -1, 0⟩⟩,
      ⟨⟨0, 0, 0⟩, ⟨0, 1, 0⟩, 0, .lambertian ⟨0, 0, 0⟩, true⟩,
      ⟨0, -1, 0⟩, _, rfl, ?_⟩
    have h2 : (1 : ℝ) < Real.sqrt 2 := by
      have := Real.sqrt_lt_sqrt (by norm_num) (show (1 : ℝ) < 2 by norm_num)
      simpa [Real.sqrt_one] using this
    have h2' : (0 : ℝ) < Real.sqrt 2 := lt_trans one_pos h2
    have hrefl : reflect ⟨1, -1, 0⟩ ⟨0, 1, 0⟩ = (⟨1, 1, 0⟩ : Vec3) := by
      simp [reflect, dot]
      norm_num
    have hlen : (⟨1, 1, 0⟩ : Vec3).length = Real.sqrt 2 := by
      simp [Vec3.length, Vec3.length_squared]
      norm_num
    have hlt : 1 / Real.sqrt 2 < 1 := by
      rw [div_lt_one h2']
      exact h2
    simp only [Metal.scatter, hrefl, unit_vector, hlen, dot, Vec3.div_def,
      Vec3.add_def, Vec3.smul_def, Vec3.mk_x, Vec3.mk_y, Vec3.mk_z]
    nlinarith [hlt]

/-- C6: `Dielectric.scatter` always returns the neutral attenuation
(1,1,1), and whenever `relative_index · sinθ > 1` (with
`relative_index = 1/refraction_index` on a front face and
`refraction_index` otherwise) the scattered direction is the reflection
of the unit incoming direction — `refract` is not invoked. -/
theorem dielectric_scatter_tir :
    ∀ (ix : ℝ) (r_in : Ray) (hit_record : HitRecord) (rand : ℝ),
      (Dielectric.scatter ix r_in hit_record rand).attenuation =
        (⟨1.0, 1.0, 1.0⟩ : Color) ∧
      ((if hit_record.front_face then 1.0 / ix else ix) *
          Real.sqrt (1.0 -
            min (dot (-(unit_vector r_in.direction)) hit_record.normal) 1.0 *
            min (dot (-(unit_vector r_in.direction)) hit_record.normal) 1.0)
          > 1.0 →
        (Dielectric.scatter ix r_in hit_record rand).scattered.direction =
          reflect (unit_vector r_in.direction) hit_record.normal) := by
  intro ix r_in hit_record rand
  refine ⟨rfl, fun h => ?_⟩
  simp only [Dielectric.scatter]
  rw [if_pos (Or.inl h)]

/-- Witness for C6: a concrete total-internal-reflection configuration
(`refraction_index = 2`, back face, grazing incidence) in which the
hypothesis holds and the scattered direction is the reflection. -/
theorem dielectric_scatter_tir_witness :
    (Dielectric.scatter 2 ⟨⟨0, 0, 0⟩, ⟨1, 0, 0⟩⟩
        ⟨⟨0, 0, 0⟩, ⟨0, 1, 0⟩, 0, .lambertian ⟨0, 0, 0⟩, false⟩
        0).scattered.direction =
      reflect (unit_vector (⟨1, 0, 0⟩ : Vec3)) (⟨0, 1, 0⟩ : Vec3) := by
  refine (dielectric_scatter_tir 2 ⟨⟨0, 0, 0⟩, ⟨1, 0, 0⟩⟩
      ⟨⟨0, 0, 0⟩, ⟨0, 1, 0⟩, 0, .lambertian ⟨0, 0, 0⟩, false⟩ 0).2 ?_
  have huv : unit_vector (⟨1, 0, 0⟩ : Vec3) = ⟨1, 0, 0⟩ := by
    simp [unit_vector, Vec3.length, Vec3.length_squared]
  simp only [huv]
  simp [dot]
  rw [show ((0 : ℝ) ⊓ 1.0) = 0 from min_eq_left (by norm_num)]
  norm_num [Real.sqrt_one]

/-- C9: the gamma-correction-and-clamp channel pipeline of
`make_color_array` maps linear 0 to 0, every value at least `0.999²`
to 255, and every negative value to 0. -/
theorem gamma_clamp_endpoints :
    gammaChannel 0 = 0 ∧
    (∀ c : ℝ, (0.999 : ℝ) ^ 2 ≤ c → gammaChannel c = 255) ∧
    (∀ c : ℝ, c < 0 → gammaChannel c = 0) := by
  refine ⟨?_, ?_, ?_⟩
  · simp only [gammaChannel, linear_to_gamma, Interval.clamp, pyInt]
    norm_num
  · intro c hc
    have hc0 : (0 : ℝ) < c := lt_of_lt_of_le (by norm_num) hc
    have hs : (0.999 : ℝ) ≤ Real.sqrt c := by
      rw [show (0.999 : ℝ) = Real.sqrt ((0.999 : ℝ) ^ 2) by
        rw [Real.sqrt_sq (by norm_num)]]
      exact Real.sqrt_le_sqrt hc
    have hs0 : (0 : ℝ) ≤ Real.sqrt c := Real.sqrt_nonneg c
    simp only [gammaChannel, linear_to_gamma, Interval.clamp, if_pos hc0]
    rw [if_neg (by
      rw [not_lt, EReal.coe_le_coe_iff]
      exact hs0)]
    by_cases hbig : ((0.999 : ℝ) : EReal) < (Real.sqrt c : EReal)
    · rw [if_pos hbig]
      simp only [EReal.toReal_coe, pyInt]
      rw [if_pos (by norm_num)]
      rw [show (256 : ℝ) * 0.999 = 255.744 by norm_num]
      rw [Int.floor_eq_iff]
      norm_num
    · rw [if_neg hbig]
      rw [not_lt, EReal.coe_le_coe_iff] at hbig
      have : Real.sqrt c = 0.999 := le_antisymm hbig hs
      rw [this, pyInt]
      rw [if_pos (by norm_num)]
      rw [show (256 : ℝ) * 0.999 = 255.744 by norm_num]
      rw [Int.floor_eq_iff]
      norm_num
  · intro c hc
    simp only [gammaChannel, linear_to_gamma, Interval.clamp, pyInt,
      if_neg (not_lt.mpr (le_of_lt hc))]
    norm_num

/-- Witness for C9: the pipeline at the concrete inputs 1 and -1. -/
theorem gamma_clamp_endpoints_witness :
    gammaChannel 1 = 255 ∧ gammaChannel (-1) = 0 :=
  ⟨gamma_clamp_endpoints.2.1 1 (by norm_num),
   gamma_clamp_endpoints.2.2 (-1) (by norm_num)⟩

theorem dot_neg_left (u v : Vec3) : dot (-u) v = -(dot u v) := by
  simp [dot]
  ring

/-- Any record built by `Sphere.record` carries the front-face-corrected
normal: it opposes the ray direction, and equals the outward normal
`(p - center)/radius` exactly on front faces. -/
theorem Sphere.record_opposes (s : Sphere) (r : Ray) (root : ℝ) :
    dot r.direction (s.record r root).normal ≤ 0 ∧
    ((s.record r root).front_face = true →
      (s.record r root).normal = ((s.record r root).p - s.center) / s.radius) ∧
    ((s.record r root).front_face = false →
      (s.record r root).normal =
        -(((s.record r root).p - s.center) / s.radius)) := by
  simp only [Sphere.record, decide_eq_true_eq, decide_eq_false_iff_not]
  by_cases hd : dot r.direction ((r.at root - s.center) / s.radius) < 0
  · rw [if_pos hd]
    exact ⟨le_of_lt hd, fun _ => rfl, fun hn => absurd hd hn⟩
  · rw [if_neg hd]
    refine ⟨?_, fun hp => absurd hp hd, fun _ => rfl⟩
    have : dot r.direction (-((r.at root - s.center) / s.radius)) =
        -(dot r.direction ((r.at root - s.center) / s.radius)) := by
      simp [dot]
      ring
    rw [this]
    exact neg_nonpos_of_nonneg (not_lt.mp hd)

/-- Every record returned by `Sphere.hit` is built by `Sphere.record`
from one of the two quadratic roots. -/
theorem Sphere.hit_eq_record (s : Sphere) (r : Ray) (t_range : Interval)
    (rec : HitRecord) (h : s.hit r t_range = some rec) :
    ∃ root, rec = s.record r root := by
  simp only [Sphere.hit] at h
  split_ifs at h
  · exact ⟨_, (Option.some.inj h).symm⟩
  · exact ⟨_, (Option.some.inj h).symm⟩

/-- C4: every hit record returned by `Sphere.hit` satisfies
`dot(ray.direction, normal) ≤ 0`; the stored normal is the outward
normal `(p - center)/radius` when `front_face` is true and its negation
otherwise. -/
theorem sphere_hit_normal_opposes (s : Sphere) (r : Ray) (t_range : Interval)
    (rec : HitRecord) (h : s.hit r t_range = some rec) :
    dot r.direction rec.normal ≤ 0 ∧
    (rec.front_face = true → rec.normal = (rec.p - s.center) / s.radius) ∧
    (rec.front_face = false →
      rec.normal = -((rec.p - s.center) / s.radius)) := by
  obtain ⟨root, hrec⟩ := Sphere.hit_eq_record s r t_range rec h
  subst hrec
  exact Sphere.record_opposes s r root

/-- A concrete evaluation of `Sphere.hit`: the unit sphere at the
origin, a ray from (0,0,2) toward -z, interval (0, 10); the nearer root
t = 1 is accepted and the record is front-facing with normal (0,0,1). -/
theorem sphere_hit_example :
    Sphere.hit ⟨⟨0, 0, 0⟩, 1, .lambertian ⟨1, 1, 1⟩⟩
        ⟨⟨0, 0, 2⟩, ⟨0, 0, -1⟩⟩ ⟨((0 : ℝ) : EReal), ((10 : ℝ) : EReal)⟩ =
      some ⟨⟨0, 0, 1⟩, ⟨0, 0, 1⟩, 1, .lambertian ⟨1, 1, 1⟩, true⟩ := by
  simp only [Sphere.hit, Sphere.record, Interval.surrounds, Ray.at,
    Vec3.length_squared, dot, Vec3.sub_def, Vec3.add_def, Vec3.smul_def,
    Vec3.div_def, Vec3.mk_x, Vec3.mk_y, Vec3.mk_z]
  norm_num [Real.sqrt_one, EReal.coe_lt_coe_iff]
  rw [← EReal.coe_one, EReal.coe_lt_coe_iff]
  norm_num

/-- Witness for C4: the theorem applied to the concrete hit above. -/
theorem sphere_hit_normal_opposes_witness :
    dot (Ray.mk ⟨0, 0, 2⟩ ⟨0, 0, -1⟩).direction
        (HitRecord.mk ⟨0, 0, 1⟩ ⟨0, 0, 1⟩ 1 (.lambertian ⟨1, 1, 1⟩)
          true).normal ≤ 0 ∧
    (HitRecord.mk ⟨0, 0, 1⟩ ⟨0, 0, 1⟩ 1 (.lambertian ⟨1, 1, 1⟩)
        true).normal =
      ((HitRecord.mk ⟨0, 0, 1⟩ ⟨0, 0, 1⟩ 1 (.lambertian ⟨1, 1, 1⟩)
          true).p - (Sphere.mk ⟨0, 0, 0⟩ 1 (.lambertian ⟨1, 1, 1⟩)).center) /
        (Sphere.mk ⟨0, 0, 0⟩ 1 (.lambertian ⟨1, 1, 1⟩)).radius := by
  have h := sphere_hit_normal_opposes ⟨⟨0, 0, 0⟩, 1, .lambertian ⟨1, 1, 1⟩⟩
    ⟨⟨0, 0, 2⟩, ⟨0, 0, -1⟩⟩ ⟨((0 : ℝ) : EReal), ((10 : ℝ) : EReal)⟩
    ⟨⟨0, 0, 1⟩, ⟨0, 0, 1⟩, 1, .lambertian ⟨1, 1, 1⟩, true⟩ sphere_hit_example
  exact ⟨h.1, h.2.1 rfl⟩

/-- C8 (documenting the divergence): constructing a camera with
`lookfrom = lookat` — a degenerate basis — does not produce a
configuration error identifying the offending parameter; the
construction dies with a bare `ZeroDivisionError` raised by
`unit_vector` on the zero view vector.  (Contrast with the repository's
actual configuration checks, which raise `ValueError` with a message:
no `valueError` outcome is possible here.) -/
theorem camera_init_degenerate_basis_zero_division :
    Camera.init (16.0 / 9.0) 400 10 10 90 (some ⟨0, 0, -1⟩)
        (some ⟨0, 0, -1⟩) none 0 10 =
      Except.error PyErr.zeroDivisionError ∧
    ∀ msg, Camera.init (16.0 / 9.0) 400 10 10 90 (some ⟨0, 0, -1⟩)
        (some ⟨0, 0, -1⟩) none 0 10 ≠
      Except.error (PyErr.valueError msg) := by
  have h : Camera.init (16.0 / 9.0) 400 10 10 90 (some ⟨0, 0, -1⟩)
      (some ⟨0, 0, -1⟩) none 0 10 = Except.error PyErr.zeroDivisionError := by
    simp only [Camera.init, pyDiv, pyUnitVector, pyVecDiv, Option.getD,
      Vec3.length, Vec3.length_squared, Vec3.sub_def, Vec3.mk_x, Vec3.mk_y,
      Vec3.mk_z, bind, Except.bind]
    norm_num [Real.sqrt_zero]
  refine ⟨h, fun msg => ?_⟩
  rw [h]
  intro hcontra
  exact PyErr.noConfusion (Except.error.inj hcontra)

/-! ### Chunk partitioning -/

theorem chunksOf_nil {α : Type} (cs : ℕ) :
    chunksOf cs ([] : List α) = [] := by
  cases cs <;> rw [chunksOf]

theorem chunksOf_flatten_aux {α : Type} (cs : ℕ) (hcs : 0 < cs) :
    ∀ (n : ℕ) (l : List α), l.length ≤ n → (chunksOf cs l).flatten = l := by
  intro n
  induction n with
  | zero =>
    intro l hl
    have : l = [] := List.eq_nil_of_length_eq_zero (Nat.le_zero.mp hl)
    subst this
    rw [chunksOf_nil]
    rfl
  | succ n ih =>
    intro l hl
    match l with
    | [] =>
      rw [chunksOf_nil]
      rfl
    | a :: rest =>
      obtain ⟨c, rfl⟩ : ∃ c, cs = c + 1 := ⟨cs - 1, by omega⟩
      rw [chunksOf, List.flatten_cons,
        ih ((a :: rest).drop (c + 1)) (by
          simp only [List.length_drop, List.length_cons]
          simp only [List.length_cons] at hl
          omega)]
      exact List.take_append_drop _ _

/-- For a positive chunk size, concatenating the chunks in order
reproduces the original list exactly. -/
theorem chunksOf_flatten {α : Type} (cs : ℕ) (hcs : 0 < cs) (l : List α) :
    (chunksOf cs l).flatten = l :=
  chunksOf_flatten_aux cs hcs l.length l le_rfl

theorem mem_pixelList (height width j i : ℕ) :
    (j, i) ∈ pixelList height width ↔ j < height ∧ i < width := by
  simp [pixelList, List.mem_flatMap, List.mem_map, List.mem_range]

theorem pixelList_nodup (height width : ℕ) : (pixelList height width).Nodup := by
  rw [pixelList, List.nodup_flatMap]
  constructor
  · intro j _
    exact (List.nodup_range width).map (fun a b hab => by
      simpa using hab)
  · refine (List.pairwise_lt_range height).imp ?_
    intro a b hab
    intro x hxa hxb
    simp only [List.mem_map, List.mem_range] at hxa hxb
    obtain ⟨ia, _, rfl⟩ := hxa
    obtain ⟨ib, _, hx⟩ := hxb
    have : b = a := (Prod.mk.injEq _ _ _ _).mp hx |>.1
    omega

theorem countP_mem_eq_one {α : Type} (x : α)
    [inst : ∀ c : List α, Decidable (x ∈ c)] :
    ∀ (L : List (List α)), L.Pairwise List.Disjoint → x ∈ L.flatten →
      L.countP (fun c => decide (x ∈ c)) = 1 := by
  intro L
  induction L with
  | nil =>
    intro _ hx
    simp at hx
  | cons c L ih =>
    intro hp hx
    rw [List.pairwise_cons] at hp
    rw [List.countP_cons]
    by_cases hxc : x ∈ c
    · have hzero : L.countP (fun c' => decide (x ∈ c')) = 0 := by
        rw [List.countP_eq_zero]
        intro c' hc'
        simp only [decide_eq_true_eq]
        exact fun hx' => hp.1 c' hc' hxc hx'
      simp [hzero, hxc]
    · have hxL : x ∈ L.flatten := by
        rw [List.flatten_cons] at hx
        rcases List.mem_append.mp hx with h | h
        · exact absurd h hxc
        · exact h
      simp [hxc, ih hp.2 hxL]

/-- C3: whenever the derived chunk size `len(pixels) // num_chunks` is
at least 1, the chunks built by `save_image_to_png` are pairwise
disjoint, their union is exactly the pixel grid, and every in-range
coordinate lies in exactly one chunk. -/
theorem chunks_partition_grid (cam : Camera) (num_chunks : ℕ)
    (hcs : 1 ≤ (pixelList cam.image_height cam.image_width).length /
      num_chunks) :
    (cam.chunks num_chunks).Pairwise List.Disjoint ∧
    (∀ j i, (j, i) ∈ (cam.chunks num_chunks).flatten ↔
      j < cam.image_height ∧ i < cam.image_width) ∧
    (∀ j i, j < cam.image_height → i < cam.image_width →
      (cam.chunks num_chunks).countP (fun c => decide ((j, i) ∈ c)) = 1) := by
  have hflat : (cam.chunks num_chunks).flatten =
      pixelList cam.image_height cam.image_width :=
    chunksOf_flatten _ hcs _
  have hnodup : (cam.chunks num_chunks).flatten.Nodup := by
    rw [hflat]
    exact pixelList_nodup _ _
  have hpair : (cam.chunks num_chunks).Pairwise List.Disjoint :=
    (List.nodup_flatten.mp hnodup).2
  refine ⟨hpair, ?_, ?_⟩
  · intro j i
    rw [hflat]
    exact mem_pixelList _ _ _ _
  · intro j i hj hi
    refine countP_mem_eq_one _ _ hpair ?_
    rw [hflat]
    exact (mem_pixelList _ _ _ _).mpr ⟨hj, hi⟩

/-- Witness for C3: a 2×2 image split into chunks of size 2; the
coordinate (1,0) lies in exactly one chunk. -/
theorem chunks_partition_grid_witness :
    ((Camera.mk 2 2 1 1 0 ⟨0, 0, 0⟩ ⟨0, 0, 0⟩ ⟨0, 0, 0⟩ ⟨0, 0, 0⟩ ⟨0, 0, 0⟩
        ⟨0, 0, 0⟩).chunks 2).countP (fun c => decide ((1, 0) ∈ c)) = 1 :=
  (chunks_partition_grid
    (Camera.mk 2 2 1 1 0 ⟨0, 0, 0⟩ ⟨0, 0, 0⟩ ⟨0, 0, 0⟩ ⟨0, 0, 0⟩ ⟨0, 0, 0⟩
      ⟨0, 0, 0⟩) 2 (by decide)).2.2 1 0 (by decide) (by decide)

/-! ### Parallel/serial equivalence -/

/-- Folding a list of (coordinate, color) writes whose colors are all
given by one function `g` of the coordinate yields the framebuffer that
is `g` on the written coordinates and untouched elsewhere — regardless
of the order (or multiplicity) of the writes. -/
theorem foldl_fbWrite_eq (g : ℕ × ℕ → RGB) :
    ∀ (L : List ((ℕ × ℕ) × RGB)) (fb : Framebuffer),
      (∀ p ∈ L, p.2 = g p.1) →
      L.foldl (fun fb p => fbWrite fb p.1 p.2) fb =
        fun k => if k ∈ L.map Prod.fst then g k else fb k := by
  intro L
  induction L with
  | nil =>
    intro fb _
    funext k
    simp
  | cons p L ih =>
    intro fb hval
    rw [List.foldl_cons,
      ih (fbWrite fb p.1 p.2) (fun q hq => hval q (List.mem_cons_of_mem _ hq))]
    funext k
    by_cases hk : k ∈ L.map Prod.fst
    · simp [hk]
    · by_cases hkp : k = p.1
      · subst hkp
        simp [hk, fbWrite, Function.update_apply,
          (hval p (List.mem_cons_self _ _)).symm]
      · simp [hk, fbWrite, Function.update_apply, hkp]

/-- The nested merge loop equals a single fold over the concatenated
results. -/
theorem mergeResults_eq_foldl (results : List (List ((ℕ × ℕ) × RGB))) :
    mergeResults results =
      results.flatten.foldl (fun fb p => fbWrite fb p.1 p.2) fbZero :=
  (List.foldl_flatten _ _ _).symm

/-- The serial double loop equals a single fold of writes over the
row-major pixel list. -/
theorem serialFramebuffer_eq_foldl (cam : Camera) (world : World)
    (rng : PixelRng) :
    cam.serialFramebuffer world rng =
      ((pixelList cam.image_height cam.image_width).map
          (fun ji => (ji, cam.renderPixel world rng ji))).foldl
        (fun fb p => fbWrite fb p.1 p.2) fbZero := by
  rw [Camera.serialFramebuffer, pixelList, List.map_flatMap,
    List.flatMap_def, List.foldl_flatten, List.foldl_map]
  simp only [List.map_map, List.foldl_map]
  rfl

/-- C2: with determinism injected into the random source, merging the
chunk results of the parallel path — in any completion order that is a
permutation of the dispatched chunks — produces a framebuffer
pixel-for-pixel identical to the serial per-pixel loop. -/
theorem parallel_serial_equivalent (cam : Camera) (world : World)
    (rng : PixelRng) (num_chunks : ℕ) (completed : List (List (ℕ × ℕ)))
    (hcs : 1 ≤ (pixelList cam.image_height cam.image_width).length /
      num_chunks)
    (hperm : completed.Perm (cam.chunks num_chunks)) :
    cam.parallelFramebuffer world rng completed =
      cam.serialFramebuffer world rng := by
  have hkeys : ((completed.map (cam.process_chunk world rng)).flatten).map
      Prod.fst = completed.flatten := by
    rw [List.map_flatten]
    simp [Camera.process_chunk, List.map_map, Function.comp_def]
  have hpar : cam.parallelFramebuffer world rng completed = fun k =>
      if k ∈ completed.flatten then cam.renderPixel world rng k
      else fbZero k := by
    rw [Camera.parallelFramebuffer, mergeResults_eq_foldl,
      foldl_fbWrite_eq (fun ji => cam.renderPixel world rng ji) _ _ ?_, hkeys]
    intro p hp
    rcases List.mem_flatten.mp hp with ⟨res, hres, hpres⟩
    rcases List.mem_map.mp hres with ⟨c, _, rfl⟩
    rcases List.mem_map.mp hpres with ⟨ji, _, rfl⟩
    rfl
  have hser : cam.serialFramebuffer world rng = fun k =>
      if k ∈ pixelList cam.image_height cam.image_width then
        cam.renderPixel world rng k
      else fbZero k := by
    rw [serialFramebuffer_eq_foldl,
      foldl_fbWrite_eq (fun ji => cam.renderPixel world rng ji) _ _ ?_]
    · rw [List.map_map]
      simp [Function.comp_def]
    · intro p hp
      rcases List.mem_map.mp hp with ⟨ji, _, rfl⟩
      rfl
  rw [hpar, hser]
  funext k
  have hmem : k ∈ completed.flatten ↔
      k ∈ pixelList cam.image_height cam.image_width := by
    rw [hperm.flatten.mem_iff]
    simp only [Camera.chunks]
    rw [chunksOf_flatten _ hcs]
  by_cases hkmem : k ∈ completed.flatten
  · rw [if_pos hkmem, if_pos (hmem.mp hkmem)]
  · rw [if_neg hkmem, if_neg (fun hco => hkmem (hmem.mpr hco))]

/-- Witness for C2: a 1×1 image, one chunk, identity completion order;
the parallel and serial framebuffers agree. -/
theorem parallel_serial_equivalent_witness :
    (Camera.mk 1 1 1 1 0 ⟨0, 0, 0⟩ ⟨0, 0, 0⟩ ⟨0, 0, 0⟩ ⟨0, 0, 0⟩ ⟨0, 0, 0⟩
        ⟨0, 0, 0⟩).parallelFramebuffer ⟨[]⟩
        (fun _ _ => ⟨0, 0, 0, 0, fun _ => ⟨⟨0, 0, 0⟩, 0⟩⟩)
        ((Camera.mk 1 1 1 1 0 ⟨0, 0, 0⟩ ⟨0, 0, 0⟩ ⟨0, 0, 0⟩ ⟨0, 0, 0⟩
          ⟨0, 0, 0⟩ ⟨0, 0, 0⟩).chunks 1) =
      (Camera.mk 1 1 1 1 0 ⟨0, 0, 0⟩ ⟨0, 0, 0⟩ ⟨0, 0, 0⟩ ⟨0, 0, 0⟩ ⟨0, 0, 0⟩
        ⟨0, 0, 0⟩).serialFramebuffer ⟨[]⟩
        (fun _ _ => ⟨0, 0, 0, 0, fun _ => ⟨⟨0, 0, 0⟩, 0⟩⟩) :=
  parallel_serial_equivalent _ ⟨[]⟩ _ 1 _ (by decide) (List.Perm.refl _)

/-! ### Closest-hit selection -/

@[simp] theorem Sphere.record_t (s : Sphere) (r : Ray) (root : ℝ) :
    (s.record r root).t = root := rfl

/-- `Sphere.hit` rewritten through the interval-independent root
definitions (pure unfolding). -/
theorem Sphere.hit_eq (s : Sphere) (r : Ray) (t_range : Interval) :
    s.hit r t_range =
      if s.disc r < 0 then none
      else if t_range.surrounds (s.root1 r) then some (s.record r (s.root1 r))
      else if t_range.surrounds (s.root2 r) then some (s.record r (s.root2 r))
      else none := rfl

theorem Vec3.length_squared_nonneg (v : Vec3) : 0 ≤ v.length_squared := by
  unfold Vec3.length_squared
  have hx := mul_self_nonneg v.x
  have hy := mul_self_nonneg v.y
  have hz := mul_self_nonneg v.z
  linarith

theorem Sphere.root1_le_root2 (s : Sphere) (r : Ray) :
    s.root1 r ≤ s.root2 r := by
  unfold Sphere.root1 Sphere.root2
  rcases eq_or_lt_of_le (Vec3.length_squared_nonneg r.direction) with heq | hpos
  · rw [← heq, div_zero, div_zero]
  · rw [div_le_div_iff_of_pos_right hpos]
    have := Real.sqrt_nonneg (s.disc r)
    linarith

theorem Interval.surrounds_mono {mn mx mx' : EReal} {x : ℝ} (hle : mx' ≤ mx)
    (h : (Interval.mk mn mx').surrounds x) : (Interval.mk mn mx).surrounds x :=
  ⟨h.1, lt_of_lt_of_le h.2 hle⟩

theorem Sphere.hit_surrounds (s : Sphere) (r : Ray) (t_range : Interval)
    (rec : HitRecord) (h : s.hit r t_range = some rec) :
    t_range.surrounds rec.t := by
  rw [Sphere.hit_eq] at h
  split_ifs at h with h1 h2 h3
  · obtain rfl : s.record r (s.root1 r) = rec := Option.some.inj h
    simpa using h2
  · obtain rfl : s.record r (s.root2 r) = rec := Option.some.inj h
    simpa using h3

/-- Narrowing the upper bound of the query interval cannot create a hit
where there was none. -/
theorem Sphere.hit_none_mono (s : Sphere) (r : Ray) (mn mx mx' : EReal)
    (hle : mx' ≤ mx) (h : s.hit r ⟨mn, mx⟩ = none) :
    s.hit r ⟨mn, mx'⟩ = none := by
  rw [Sphere.hit_eq] at h ⊢
  split_ifs at h with h1 h2 h3
  · rw [if_pos h1]
  · rw [if_neg h1,
      if_neg (fun hs => h2 (Interval.surrounds_mono hle hs)),
      if_neg (fun hs => h3 (Interval.surrounds_mono hle hs))]

/-- Narrowing the upper bound below/at the found hit's `t` kills the
hit; narrowing that keeps `t` strictly inside preserves the very same
record. -/
theorem Sphere.hit_some_narrow (s : Sphere) (r : Ray) (mn mx mx' : EReal)
    (rec : HitRecord) (hle : mx' ≤ mx) (h : s.hit r ⟨mn, mx⟩ = some rec) :
    (((rec.t : EReal) < mx') → s.hit r ⟨mn, mx'⟩ = some rec) ∧
    ((mx' ≤ (rec.t : EReal)) → s.hit r ⟨mn, mx'⟩ = none) := by
  have hroots : ((s.root1 r : ℝ) : EReal) ≤ ((s.root2 r : ℝ) : EReal) :=
    EReal.coe_le_coe_iff.mpr (Sphere.root1_le_root2 s r)
  rw [Sphere.hit_eq] at h ⊢
  split_ifs at h with h1 h2 h3
  · obtain rfl : s.record r (s.root1 r) = rec := Option.some.inj h
    simp only [Sphere.record_t]
    constructor
    · intro hlt
      rw [if_neg h1, if_pos ⟨h2.1, hlt⟩]
    · intro hge
      rw [if_neg h1, if_neg (fun hs => absurd hs.2 (not_lt.mpr hge)),
        if_neg (fun hs => absurd hs.2 (not_lt.mpr (le_trans hge hroots)))]
  · obtain rfl : s.record r (s.root2 r) = rec := Option.some.inj h
    simp only [Sphere.record_t]
    constructor
    · intro hlt
      rw [if_neg h1, if_neg (fun hs => h2 (Interval.surrounds_mono hle hs)),
        if_pos ⟨h3.1, hlt⟩]
    · intro hge
      rw [if_neg h1, if_neg (fun hs => h2 (Interval.surrounds_mono hle hs)),
        if_neg (fun hs => absurd hs.2 (not_lt.mpr hge))]

/-- A hit found against a narrowed interval is also the hit against any
widening of its upper bound. -/
theorem Sphere.hit_some_widen (s : Sphere) (r : Ray) (mn mx mx' : EReal)
    (rec : HitRecord) (hle : mx' ≤ mx) (h : s.hit r ⟨mn, mx'⟩ = some rec) :
    s.hit r ⟨mn, mx⟩ = some rec := by
  have hroots : ((s.root1 r : ℝ) : EReal) ≤ ((s.root2 r : ℝ) : EReal) :=
    EReal.coe_le_coe_iff.mpr (Sphere.root1_le_root2 s r)
  rw [Sphere.hit_eq] at h ⊢
  split_ifs at h with h1 h2 h3
  · rw [if_neg h1, if_pos (Interval.surrounds_mono hle h2)]
    exact h
  · rw [if_neg h1,
      if_neg (fun hs => h2 ⟨hs.1, lt_of_le_of_lt hroots h3.2⟩),
      if_pos (Interval.surrounds_mono hle h3)]
    exact h

/-- The loop state (the closest record so far) only serves as the
fallback result: running the loop with any accumulated `closest` equals
running it from scratch and falling back to `closest`. -/
theorem World.hitLoop_or (r : Ray) :
    ∀ (objs : List Sphere) (closest : Option HitRecord) (curr : Interval),
      World.hitLoop r objs closest curr =
        (World.hitLoop r objs none curr).or closest := by
  intro objs
  induction objs with
  | nil => intro closest curr; rfl
  | cons o rest ih =>
    intro closest curr
    cases hhit : o.hit r curr with
    | none =>
      simp only [World.hitLoop, hhit]
      exact ih closest curr
    | some c =>
      simp only [World.hitLoop, hhit]
      rw [ih (some c) _, Option.or_assoc]
      rfl

/-- The invariant of `World.hit`'s loop over the whole object list: the
returned record (if any) is some object's hit over the original
interval, with minimal `t` among all objects' hits over that interval;
`none` is returned exactly when no object hits. -/
theorem World.hitLoop_spec (r : Ray) :
    ∀ (objs : List Sphere) (i : Interval),
      (∀ rec, World.hitLoop r objs none i = some rec →
        i.surrounds rec.t ∧ (∃ o ∈ objs, o.hit r i = some rec) ∧
        ∀ o ∈ objs, ∀ rec', o.hit r i = some rec' → rec.t ≤ rec'.t) ∧
      (World.hitLoop r objs none i = none ↔
        ∀ o ∈ objs, o.hit r i = none) := by
  intro objs
  induction objs with
  | nil =>
    intro i
    constructor
    · intro rec h
      cases h
    · simp [World.hitLoop]
  | cons o rest ih =>
    intro i
    cases hhit : o.hit r i with
    | none =>
      have hstep : World.hitLoop r (o :: rest) none i =
          World.hitLoop r rest none i := by
        simp only [World.hitLoop, hhit]
      rw [hstep]
      constructor
      · intro rec h
        obtain ⟨hsur, ⟨o', ho', hrec⟩, hmin⟩ := (ih i).1 rec h
        refine ⟨hsur, ⟨o', List.mem_cons_of_mem _ ho', hrec⟩, ?_⟩
        intro o'' ho'' rec' hrec'
        rcases List.mem_cons.mp ho'' with rfl | hmem
        · rw [hhit] at hrec'
          cases hrec'
        · exact hmin o'' hmem rec' hrec'
      · rw [(ih i).2]
        constructor
        · intro hall
          intro o'' ho''
          rcases List.mem_cons.mp ho'' with rfl | hmem
          · exact hhit
          · exact hall o'' hmem
        · intro hall o'' hmem
          exact hall o'' (List.mem_cons_of_mem _ hmem)
    | some c =>
      have hsurr_c : i.surrounds c.t := Sphere.hit_surrounds o r i c hhit
      have hcmx : (c.t : EReal) ≤ i.max := le_of_lt hsurr_c.2
      have hstep : World.hitLoop r (o :: rest) none i =
          (World.hitLoop r rest none ⟨i.min, (c.t : EReal)⟩).or (some c) := by
        simp only [World.hitLoop, hhit]
        exact World.hitLoop_or r rest (some c) _
      rw [hstep]
      constructor
      · intro rec h
        cases hx : World.hitLoop r rest none ⟨i.min, (c.t : EReal)⟩ with
        | some d =>
          rw [hx] at h
          obtain rfl : d = rec := Option.some.inj h
          obtain ⟨hsurn, ⟨o', ho', hrec⟩, hminn⟩ :=
            (ih ⟨i.min, (c.t : EReal)⟩).1 d hx
          have hdc : d.t < c.t := EReal.coe_lt_coe_iff.mp hsurn.2
          refine ⟨⟨hsurn.1, lt_trans hsurn.2 hsurr_c.2⟩,
            ⟨o', List.mem_cons_of_mem _ ho',
              Sphere.hit_some_widen o' r i.min i.max (c.t : EReal) d hcmx
                hrec⟩, ?_⟩
          intro o'' ho'' rec' hrec'
          rcases List.mem_cons.mp ho'' with rfl | hmem
          · have : c = rec' := by
              rw [hhit] at hrec'
              exact Option.some.inj hrec'
            subst this
            exact le_of_lt hdc
          · by_cases hlt : (rec'.t : EReal) < (c.t : EReal)
            · exact hminn o'' hmem rec'
                ((Sphere.hit_some_narrow o'' r i.min i.max (c.t : EReal) rec'
                  hcmx hrec').1 hlt)
            · have h2 : c.t ≤ rec'.t := EReal.coe_le_coe_iff.mp (not_lt.mp hlt)
              linarith
        | none =>
          rw [hx] at h
          obtain rfl : c = rec := Option.some.inj h
          refine ⟨hsurr_c, ⟨o, List.mem_cons_self _ _, hhit⟩, ?_⟩
          intro o'' ho'' rec' hrec'
          rcases List.mem_cons.mp ho'' with rfl | hmem
          · have : c = rec' := by
              rw [hhit] at hrec'
              exact Option.some.inj hrec'
            rw [this]
          · by_cases hlt : (rec'.t : EReal) < (c.t : EReal)
            · have hnarrow :=
                (Sphere.hit_some_narrow o'' r i.min i.max (c.t : EReal) rec'
                  hcmx hrec').1 hlt
              have hnone := (ih ⟨i.min, (c.t : EReal)⟩).2.mp hx o'' hmem
              rw [hnone] at hnarrow
              cases hnarrow
            · exact EReal.coe_le_coe_iff.mp (not_lt.mp hlt)
      · constructor
        · intro h
          exfalso
          cases hx : World.hitLoop r rest none ⟨i.min, (c.t : EReal)⟩ with
          | some d => rw [hx] at h; cases h
          | none => rw [hx] at h; cases h
        · intro hall
          exfalso
          have := hall o (List.mem_cons_self _ _)
          rw [hhit] at this
          cases this

/-- C1: `World.hit` returns the hit record whose `t` is minimal among
all primitives' hits strictly inside the query interval (the first such
record on ties), or `none` exactly when no primitive hits; the caller's
interval object is unchanged — only the query-scoped copy is
narrowed. -/
theorem world_hit_closest (w : World) (r : Ray) (t_range : Interval) :
    (∀ rec, w.hit r t_range = some rec →
      t_range.surrounds rec.t ∧
      (∃ o ∈ w.objects, o.hit r t_range = some rec) ∧
      ∀ o ∈ w.objects, ∀ rec', o.hit r t_range = some rec' →
        rec.t ≤ rec'.t) ∧
    (w.hit r t_range = none ↔ ∀ o ∈ w.objects, o.hit r t_range = none) ∧
    w.hitCallerInterval r t_range = t_range :=
  ⟨(World.hitLoop_spec r w.objects t_range).1,
   (World.hitLoop_spec r w.objects t_range).2, rfl⟩

/-- Witness for C1: in a one-sphere world the returned record is that
sphere's hit over the original interval. -/
theorem world_hit_closest_witness :
    ∃ o ∈ (World.mk [Sphere.mk ⟨0, 0, 0⟩ 1 (.lambertian ⟨1, 1, 1⟩)]).objects,
      o.hit (Ray.mk ⟨0, 0, 2⟩ ⟨0, 0, -1⟩)
          ⟨((0 : ℝ) : EReal), ((10 : ℝ) : EReal)⟩ =
        some ⟨⟨0, 0, 1⟩, ⟨0, 0, 1⟩, 1, .lambertian ⟨1, 1, 1⟩, true⟩ := by
  have hw : (World.mk [Sphere.mk ⟨0, 0, 0⟩ 1 (.lambertian ⟨1, 1, 1⟩)]).hit
      (Ray.mk ⟨0, 0, 2⟩ ⟨0, 0, -1⟩) ⟨((0 : ℝ) : EReal), ((10 : ℝ) : EReal)⟩ =
      some ⟨⟨0, 0, 1⟩, ⟨0, 0, 1⟩, 1, .lambertian ⟨1, 1, 1⟩, true⟩ := by
    simp only [World.hit, World.hitLoop, sphere_hit_example]
  exact ((world_hit_closest _ _ _).1 _ hw).2.1

end Raytracer
